import Mathlib

/-!
Verification of `static_dhcp_to_dns.py` (Sverto/StaticDHCPLeasesToDNS).

Shallow embedding of the script's reconciliation core: the lease data model,
the cache diff (`db_compare`), the cache write-back (`db_update`), the
nsupdate transaction builder (`dns_update`), the config-line scanner
(`get_static_leases`) and the main loop's apply step.

Conventions of the embedding:
* Python `None`-able string fields become `Option String`; `pyStr` is Python's
  `str()`/`%s` rendering of such a field (`None` prints as `"None"`).
* Python string operations (`startswith`, slicing, `split('.')`) act on
  characters, so they are modelled on `String.data : List Char`.
* A Python exception is an `Except`/`Option` error value; sqlite errors are
  the `PyError` constructors named after the exception class raised.
* `leases.sort(key=lambda x: x.state)` is Python's stable sort by state;
  it is modelled by a stable insertion sort (`sortByState`).  Any stable
  sort by the same key computes the same list, so this is extensionally
  the same function.
-/

/-- The four lifecycle states of `LeaseState` (an `IntEnum` in the source,
with values UNCHANGED=1, NEW=2, UPDATED=3, DELETED=4). -/
inductive LeaseState where
  | unchanged
  | new
  | updated
  | deleted
deriving DecidableEq, Repr

/-- Numeric value of the `IntEnum`, used as the sort key in `db_compare`. -/
def LeaseState.toNat : LeaseState → Nat
  | .unchanged => 1
  | .new => 2
  | .updated => 3
  | .deleted => 4

/-- The `Lease` class.  `__init__(self, type, domain=None, hostname=None, ip=None)`
assigns `domain`, `hostname` and `ip` (each defaulting to `None`); the `state`
class attribute defaults to `LeaseState.UNCHANGED`.  The `type` parameter of
`__init__` is never stored and the `type` class attribute is never read, so it
is omitted from the embedding. -/
structure Lease where
  domain : Option String := none
  hostname : Option String := none
  ip : Option String := none
  state : LeaseState := .unchanged
deriving DecidableEq, Repr

/-- One row of the sqlite `leases` table:
`(domain text NOT NULL, hostname text NOT NULL, ip text NOT NULL, PRIMARY KEY (domain, hostname))`. -/
structure CacheRecord where
  domain : String
  hostname : String
  ip : String
deriving DecidableEq, Repr

/-- Python `'%s' % x` on an optional string: `None` renders as `"None"`. -/
def pyStr : Option String → String
  | none => "None"
  | some s => s

/-- Python truthiness of an optional string: `None` and `''` are falsy. -/
def truthy : Option String → Bool
  | none => false
  | some s => !s.data.isEmpty

/-- Python `line.startswith(pre)`, character-wise. -/
def strStartsWith (line pre : String) : Bool :=
  pre.data.isPrefixOf line.data

/-- Python `line[pre:][:-suf]`: drop `pre` leading characters, then drop
`suf` trailing characters. -/
def pyContent (line : String) (pre suf : Nat) : String :=
  let cs := line.data.drop pre
  ⟨cs.take (cs.length - suf)⟩

/-- The `(domain, hostname)` identity key of a lease (optional fields). -/
def leaseKey (l : Lease) : Option String × Option String :=
  (l.domain, l.hostname)

/-- The `(domain, hostname)` primary key of a cache row. -/
def recKey (r : CacheRecord) : String × String :=
  (r.domain, r.hostname)

/-- Stable insertion of a lease into a list sorted by state value: the new
element goes in front of the first element whose state is not smaller.
Combined with `sortByState` (a right fold) this places earlier list elements
before later ones whenever their keys are equal, which is exactly Python's
stable `list.sort(key=...)`. -/
def insertByState (x : Lease) : List Lease → List Lease
  | [] => [x]
  | y :: ys =>
    if x.state.toNat ≤ y.state.toNat then x :: y :: ys
    else y :: insertByState x ys

/-- `leases.sort(key=lambda x: x.state)` in `db_compare`, as a stable sort. -/
def sortByState (l : List Lease) : List Lease :=
  l.foldr insertByState []

/-- Exceptions that the script can hit: `sqlite3.OperationalError` (bad SQL),
`AttributeError` (attribute access on `None`), and `sqlite3.ProgrammingError`
(operating on a closed connection). -/
inductive PyError where
  | operationalError
  | attributeError
  | programmingError
deriving DecidableEq, Repr

/-- `SELECT * FROM leases WHERE domain = ? AND hostname = ?` followed by
`fetchone()`: the first row whose key equals the bound parameters.  A `None`
parameter is bound as SQL `NULL`, and `domain = NULL` matches no row. -/
def findCached (K : List CacheRecord) (d h : Option String) : Option CacheRecord :=
  K.find? (fun r => d == some r.domain && h == some r.hostname)

/-- The per-lease classification loop of `db_compare` (lines 189-198):
a cached row with a different `ip` marks the lease `UPDATED`, a missing row
marks it `NEW`, otherwise the lease object is left as it came in. -/
def classify (K : List CacheRecord) (l : Lease) : Lease :=
  match findCached K l.domain l.hostname with
  | some r => if some r.ip != l.ip then { l with state := .updated } else l
  | none => { l with state := .new }

/-- The deleted-records step of `db_compare` (lines 201-207): every cache row
whose `(domain, hostname)` pair is not among the `%s`-formatted lease keys is
turned into a lease marked `DELETED`.  The source constructs it as
`Lease(record[0], record[1], record[2])`, i.e. positionally against
`__init__(self, type, domain, hostname, ip)`: the cached domain lands in the
discarded `type` parameter, the cached hostname becomes `domain`, the cached
ip becomes `hostname`, and `ip` is left `None`. -/
def deletedLeases (K : List CacheRecord) (excl : List (String × String)) : List Lease :=
  (K.filter (fun r => !(excl.contains (r.domain, r.hostname)))).map
    (fun r => { domain := some r.hostname, hostname := some r.ip, ip := none,
                state := .deleted })

/-- `db_compare` (lines 183-216): classify each incoming lease against the
cache, append a `DELETED` lease for every cache row not matched by an incoming
key, and sort the result by state for the log.  The deleted-records query
interpolates the lease keys into `... NOT (domain, hostname) IN (VALUES ...)`;
when the lease list is empty the generated SQL is `IN (VALUES )`, which sqlite
rejects with `sqlite3.OperationalError` (a `VALUES` clause needs at least one
row), so the empty case is an error.  String values are modelled as the row
values they denote (the source builds the SQL by textual interpolation,
marked `# unsafe` there). -/
def db_compare (L : List Lease) (K : List CacheRecord) : Except PyError (List Lease) :=
  let L1 := L.map (classify K)
  if L1.isEmpty then .error .operationalError
  else
    let dels := deletedLeases K (L1.map (fun x => (pyStr x.domain, pyStr x.hostname)))
    .ok (sortByState (L1 ++ dels))

/-- `INSERT OR REPLACE INTO leases VALUES (?, ?, ?)` against the primary key
`(domain, hostname)`: replace the matching row if one exists, else append. -/
def upsert (c : List CacheRecord) (d h i : String) : List CacheRecord :=
  if c.any (fun r => r.domain == d && r.hostname == h) then
    c.map (fun r => if r.domain == d && r.hostname == h then ⟨d, h, i⟩ else r)
  else c ++ [⟨d, h, i⟩]

/-- `db_update` (lines 220-232): delete the cache rows keyed by the `DELETED`
leases, then upsert a row for every `NEW`/`UPDATED` lease, in one committed
transaction.  A `None` field in an inserted row violates the table's
`NOT NULL` constraint, the exception skips `con.commit()`, and the whole
transaction rolls back: modelled as `none` with the cache unchanged.  A `None`
in a delete key is bound as SQL `NULL` and matches no row. -/
def db_update (leases : List Lease) (K : List CacheRecord) : Option (List CacheRecord) :=
  let dels := (leases.filter (fun x => x.state == .deleted)).map
    (fun y => (y.domain, y.hostname))
  let mods := (leases.filter (fun x => x.state == .updated || x.state == .new)).map
    (fun y => (y.domain, y.hostname, y.ip))
  let K1 := K.filter (fun r => !(dels.any (fun d => d.1 == some r.domain && d.2 == some r.hostname)))
  if mods.any (fun m => m.1.isNone || m.2.1.isNone || m.2.2.isNone) then none
  else some (mods.foldl (fun c m => upsert c (m.1.getD "") (m.2.1.getD "") (m.2.2.getD "")) K1)

/-- A DNS resource record as written into the nsupdate command file:
`TTL A ip` or `TTL PTR target`. -/
inductive RR where
  | A (ttl : Nat) (ip : String)
  | PTR (ttl : Nat) (target : String)
deriving DecidableEq, Repr

/-- One line of the nsupdate command file: `update delete name`,
`update add name rr`, or `send`. -/
inductive Line where
  | del (name : String)
  | add (name : String) (rr : RR)
  | send
deriving DecidableEq, Repr

/-- `dnsTtl` default (never overridden by a command-line flag). -/
def dnsTtl : Nat := 3600

/-- Python `ip.split('.')` on the character list, structurally. -/
def splitDot : List Char → List (List Char)
  | [] => [[]]
  | c :: cs =>
    match splitDot cs, c == '.' with
    | r, true => [] :: r
    | [], false => [[c]]
    | p :: ps, false => (c :: p) :: ps

/-- `'.'.join(parts)` on character lists. -/
def joinDot : List (List Char) → List Char
  | [] => []
  | [p] => p
  | p :: ps => p ++ '.' :: joinDot ps

/-- `'.'.join(ip.split('.')[::-1]) + '.in-addr.arpa'` (line 151). -/
def ptrName (ip : String) : String :=
  ⟨joinDot (splitDot ip.data).reverse ++ ".in-addr.arpa".data⟩

/-- The `hostname.domain.` forward name as `%s.%s.` renders it. -/
def fwdName (l : Lease) : String :=
  pyStr l.hostname ++ "." ++ pyStr l.domain ++ "."

/-- The command-file lines one lease contributes in `dns_update`
(lines 144-155): delete-all at the forward name, add the A record unless the
lease is `DELETED`, `send`; then the same for the PTR record at the reversed
address name.  Only invoked on leases whose `ip` is present (see `dns_update`). -/
def leaseLines (l : Lease) : List Line :=
  [Line.del (fwdName l)]
    ++ (if l.state != .deleted then [Line.add (fwdName l) (RR.A dnsTtl (pyStr l.ip))] else [])
    ++ [Line.send]
    ++ [Line.del (ptrName (pyStr l.ip))]
    ++ (if l.state != .deleted
        then [Line.add (ptrName (pyStr l.ip)) (RR.PTR dnsTtl (fwdName l))] else [])
    ++ [Line.send]

/-- `dns_update` (lines 138-164): build the nsupdate command file for the
given leases.  Line 151 evaluates `lease.ip.split('.')` for every lease, state
included `DELETED`, so a lease whose `ip` is `None` raises `AttributeError`
before the file is finished: modelled as `none`. -/
def dns_update (leases : List Lease) : Option (List Line) :=
  if leases.any (fun l => l.ip.isNone) then none
  else some ((leases.map leaseLines).foldr (· ++ ·) [])

/-- The apply step of the main loop (lines 241-253): compute
`processableLeases` (everything when the force flag is set, otherwise the
non-`UNCHANGED` leases), and when it is non-empty call `dns_update(leases)` —
note the source passes the full `leases` list, not `processableLeases`.
An empty processable list skips the DNS update (`some []`: no lines sent). -/
def run_apply (force : Bool) (leases : List Lease) : Option (List Line) :=
  let processableLeases := if force then leases else leases.filter (fun x => x.state != .unchanged)
  if processableLeases.length > 0 then dns_update leases else some []

/-- Outcome of one pass of the main loop: `ok` with the cache it committed, or
`fail` (an uncaught exception) with the cache state at the moment it was
raised.  The cache is only ever written inside `db_update`, which commits
atomically, so every failure carries the unmodified input cache. -/
inductive CycleResult where
  | ok (cache : List CacheRecord)
  | fail (cache : List CacheRecord)
deriving DecidableEq, Repr

/-- The persisted cache after a cycle, whatever the outcome. -/
def cacheOf : CycleResult → List CacheRecord
  | .ok c => c
  | .fail c => c

/-- One pass of the main loop (lines 237-253) over a fetched lease list `L`
and persisted cache `K`.  `applyOk` is the exit status of the external
`nsupdate` call: `subprocess.check_call` raises when it is false, and
`db_update` is only reached after it returns. -/
def run_cycle (applyOk force : Bool) (L : List Lease) (K : List CacheRecord) : CycleResult :=
  match db_compare L K with
  | .error _ => .fail K
  | .ok leases =>
    let processableLeases := if force then leases else leases.filter (fun x => x.state != .unchanged)
    if processableLeases.length > 0 then
      match dns_update leases with
      | none => .fail K
      | some _ =>
        if applyOk then
          match db_update leases K with
          | none => .fail K
          | some K2 => .ok K2
        else .fail K
    else .ok K

/-- How the `try` block of `get_db_connection` (lines 170-174) can end:
both `sqlite3.connect` and the `CREATE TABLE IF NOT EXISTS` initialization
succeed; `sqlite3.connect` itself raises (so `con` is still `None`); or
`connect` succeeds and a later statement of the block — `con.cursor()` or the
`CREATE TABLE` — raises (so `con` is a real connection object). -/
inductive DbOpen where
  | ok
  | connectFail
  | initFail
deriving DecidableEq, Repr

/-- The value `get_db_connection` can return: a usable connection over the
cache contents, or a connection object the `except` block already closed. -/
inductive Conn where
  | live (cache : List CacheRecord)
  | closed
deriving DecidableEq, Repr

/-- `get_db_connection` (lines 168-179): `con = None`; `try` connect and run
`CREATE TABLE IF NOT EXISTS`; on `sqlite3.Error` the `except` block prints,
runs `con.close()` if `con` is truthy, and the function falls through to
`return con` — it never aborts.  So a `connect` failure returns `None`
(`con` was never assigned), while an initialization failure after a
successful `connect` returns the connection object itself, now closed. -/
def get_db_connection (mode : DbOpen) (K : List CacheRecord) : Option Conn :=
  match mode with
  | .ok => some (.live K)
  | .connectFail => none
  | .initFail => some .closed

/-- `db_compare` as called at lines 185-186: `con = get_db_connection()` then
`cur = con.cursor()`.  On a `None` connection, `con.cursor()` raises
`AttributeError`; on a closed connection it raises
`sqlite3.ProgrammingError` ("Cannot operate on a closed database"). -/
def db_compare_run (mode : DbOpen) (L : List Lease) (K : List CacheRecord) :
    Except PyError (List Lease) :=
  match get_db_connection mode K with
  | none => .error .attributeError
  | some .closed => .error .programmingError
  | some (.live cache) => db_compare L cache

/-- Scanner state of `get_static_leases`: the lease under construction and
the accumulated list. -/
structure ScanSt where
  sl : Lease
  acc : List Lease
deriving DecidableEq, Repr

/-- One iteration of the line loop in `get_static_leases` (lines 108-129):
a `<domain>` line starts a fresh lease carrying only the domain; an
`<ipaddr>`/`<hostname>` line fills the respective field or raises a mismatch
exception when the field is already set; then, if domain, ip and hostname are
all truthy, the lease is appended and a fresh one (same domain) is started. -/
def scanLine (st : ScanSt) (line : String) : Except String ScanSt :=
  let step : Except String Lease :=
    if strStartsWith line "<domain>" then
      .ok { domain := some (pyContent line 8 9), hostname := none, ip := none,
            state := .unchanged }
    else if strStartsWith line "<ipaddr>" then
      match st.sl.ip with
      | none => .ok { st.sl with ip := some (pyContent line 8 9) }
      | some _ => .error ("Static lease IPADDR mismatch in domain " ++ pyStr st.sl.domain)
    else if strStartsWith line "<hostname>" then
      match st.sl.hostname with
      | none => .ok { st.sl with hostname := some (pyContent line 10 11) }
      | some _ => .error ("Static lease HOSTNAME mismatch in domain " ++ pyStr st.sl.domain)
    else .ok st.sl
  match step with
  | .error e => .error e
  | .ok sl1 =>
    if truthy sl1.domain && truthy sl1.ip && truthy sl1.hostname then
      .ok ⟨{ domain := sl1.domain, hostname := none, ip := none, state := .unchanged },
           st.acc ++ [sl1]⟩
    else .ok ⟨sl1, st.acc⟩

/-- Run the scanner from a given state over a list of lines; an exception
stops the scan. -/
def scanFrom (st : ScanSt) : List String → Except String ScanSt
  | [] => .ok st
  | l :: ls =>
    match scanLine st l with
    | .error e => .error e
    | .ok st1 => scanFrom st1 ls

/-- The initial scanner state: `sl = Lease(LeaseType.STATIC)`, all fields
`None`, and an empty result list. -/
def initScan : ScanSt :=
  ⟨{ domain := none, hostname := none, ip := none, state := .unchanged }, []⟩

/-- The whole line loop of `get_static_leases`. -/
def scanAll (lines : List String) : Except String ScanSt :=
  scanFrom initScan lines

/-- `get_static_leases` (lines 97-134) on the decoded, stripped output lines
of the xmllint invocation: scan all lines, then append the pending lease once
more if it is complete. -/
def get_static_leases (lines : List String) : Except String (List Lease) :=
  match scanAll lines with
  | .error e => .error e
  | .ok st =>
    if truthy st.sl.domain && truthy st.sl.ip && truthy st.sl.hostname then
      .ok (st.acc ++ [st.sl])
    else .ok st.acc

/-- A child element of one `staticmap` entry, in document order. -/
inductive SMField where
  | ipaddr (s : String)
  | hostname (s : String)
deriving DecidableEq, Repr

/-- Is the field a `hostname` element? -/
def SMField.isHostname : SMField → Bool
  | .hostname _ => true
  | .ipaddr _ => false

/-- The xmllint output line of one staticmap child element. -/
def fieldLine : SMField → String
  | .ipaddr s => "<ipaddr>" ++ s ++ "</ipaddr>"
  | .hostname s => "<hostname>" ++ s ++ "</hostname>"

/-- Modelled from the spec: the external config reader is
`xmllint --xpath '//*[*[name()="staticmap"]]/domain|//staticmap/hostname|//staticmap/ipaddr'`
run on the OPNSense config, which is outside the repository.  It emits, in
document order, one `<domain>` line per interface group followed by the
`<hostname>`/`<ipaddr>` child lines of each of the group's staticmap entries
("1 line containing the domain, 1 line containing the hostname, 1 line
containing the ip... in a repeating order" per the source comment).  A group
is a domain together with its entries; an entry is its child fields in
document order. -/
def xmllintLines (groups : List (String × List (List SMField))) : List String :=
  (groups.map (fun g =>
    ("<domain>" ++ g.1 ++ "</domain>") ::
      (g.2.map (fun entry => entry.map fieldLine)).foldr (· ++ ·) [])).foldr (· ++ ·) []

/-- The DNS server's record state, one slot per owner name, as the claims
model it: each nsupdate group first deletes every record at a name and then
optionally adds one. -/
def Store : Type := String → Option RR

/-- Effect of one command-file line on the server state: `update delete name`
clears the slot, `update add name rr` sets it, `send` only flushes. -/
def applyLine (s : Store) : Line → Store
  | .del n => fun m => if m = n then none else s m
  | .add n r => fun m => if m = n then some r else s m
  | .send => s

/-- Apply a whole command file to the server state, in order. -/
def applyLines (t : List Line) (s : Store) : Store :=
  t.foldl applyLine s

/-- The store that has no records at all. -/
def emptyStore : Store := fun _ => none

/-- Lease-to-record correspondence used to state the cache invariant:
the lease's three data fields are exactly the record's columns. -/
def matchesB (l : Lease) (r : CacheRecord) : Bool :=
  l.domain == some r.domain && l.hostname == some r.hostname && l.ip == some r.ip

/-- The cache exactly mirrors the lease list: every cached row is one of the
bindings, every binding is cached, and no key is cached twice. -/
def mirrors (K : List CacheRecord) (L : List Lease) : Bool :=
  K.all (fun r => L.any (fun l => matchesB l r)) &&
  L.all (fun l => K.any (fun r => matchesB l r)) &&
  decide ((K.map recKey).Nodup)

deriving instance DecidableEq for Except

example : db_compare [{ domain := some "a", hostname := some "b", ip := some "1.2.3.4" }]
    [⟨"c", "d", "5.6.7.8"⟩] =
    .ok [{ domain := some "a", hostname := some "b", ip := some "1.2.3.4", state := .new },
         { domain := some "d", hostname := some "5.6.7.8", ip := none, state := .deleted }] := by
  decide

example : ptrName "10.0.0.2" = "2.0.0.10.in-addr.arpa" := by decide

example : db_compare ([] : List Lease) [⟨"example.com", "host1", "10.0.0.1"⟩] =
    .error .operationalError := by decide

/-- The `(domain, hostname)` keys of the leases a compare result marked
`DELETED`. -/
def deletedKeys (ls : List Lease) : List (Option String × Option String) :=
  (ls.filter (fun l => l.state == .deleted)).map leaseKey

/-- C1 current set: one binding (a, b) → 1.2.3.4. -/
def c1L : List Lease :=
  [{ domain := some "a", hostname := some "b", ip := some "1.2.3.4" }]

/-- C1 cache: one record (c, d) → 5.6.7.8, so keys(K) − keys(C) = {(c, d)}. -/
def c1K : List CacheRecord := [⟨"c", "d", "5.6.7.8"⟩]

/-- C1: the code violates the claim.  Reconciling current set {(a,b)→1.2.3.4}
against cache {(c,d)→5.6.7.8} produces its `DELETED` lease from
`Lease(record[0], record[1], record[2])`, whose positional arguments land one
slot to the left of `__init__(self, type, domain, hostname, ip)`: the deleted
lease's key is (d, 5.6.7.8) — cached hostname and cached ip — and not the
cache key (c, d), so the `Deleted`-state keys are not keys(K) − keys(C). -/
theorem c1_deleted_keys_shifted :
    db_compare c1L c1K =
      .ok [{ domain := some "a", hostname := some "b", ip := some "1.2.3.4", state := .new },
           { domain := some "d", hostname := some "5.6.7.8", ip := none, state := .deleted }] ∧
    deletedKeys [{ domain := some "a", hostname := some "b", ip := some "1.2.3.4", state := .new },
                 { domain := some "d", hostname := some "5.6.7.8", ip := none, state := .deleted }]
      = [(some "d", some "5.6.7.8")] ∧
    (some "c", some "d") ∉
      deletedKeys [{ domain := some "a", hostname := some "b", ip := some "1.2.3.4", state := .new },
                   { domain := some "d", hostname := some "5.6.7.8", ip := none, state := .deleted }] := by
  decide

/-- C4 current set: (example.com, host1) → 10.0.0.2. -/
def c4L : List Lease :=
  [{ domain := some "example.com", hostname := some "host1", ip := some "10.0.0.2" }]

/-- C4 cache: (example.com, host1) → 10.0.0.1. -/
def c4K : List CacheRecord := [⟨"example.com", "host1", "10.0.0.1"⟩]

/-- C4 compare output: the single binding classified `UPDATED`. -/
def c4Out : List Lease :=
  [{ domain := some "example.com", hostname := some "host1", ip := some "10.0.0.2",
     state := .updated }]

/-- C4 counterexample: the claim expects the transaction to delete the PTR
record at `1.0.0.10.in-addr.arpa` (the reverse name of the OLD address
10.0.0.1 held in the cache), but the builder only ever uses `lease.ip`, the
new address: no line of the built transaction deletes
`1.0.0.10.in-addr.arpa`, so the stale PTR of the old address is left behind. -/
theorem c4_old_ptr_not_deleted :
    db_compare c4L c4K = .ok c4Out ∧
    dns_update c4Out =
      some [Line.del "host1.example.com.",
            Line.add "host1.example.com." (RR.A 3600 "10.0.0.2"),
            Line.send,
            Line.del "2.0.0.10.in-addr.arpa",
            Line.add "2.0.0.10.in-addr.arpa" (RR.PTR 3600 "host1.example.com."),
            Line.send] ∧
    Line.del "1.0.0.10.in-addr.arpa" ∉
      [Line.del "host1.example.com.",
       Line.add "host1.example.com." (RR.A 3600 "10.0.0.2"),
       Line.send,
       Line.del "2.0.0.10.in-addr.arpa",
       Line.add "2.0.0.10.in-addr.arpa" (RR.PTR 3600 "host1.example.com."),
       Line.send] := by
  decide

/-- C4 (amended): with cache (example.com, host1) → 10.0.0.1 and current
binding (example.com, host1) → 10.0.0.2, reconciliation classifies the
binding `Updated`, and the built transaction deletes the records at
`host1.example.com`, adds `host1.example.com A 10.0.0.2`, deletes the PTR at
`2.0.0.10.in-addr.arpa` — the reverse name of the NEW address — and adds a
PTR there pointing to `host1.example.com.`; the PTR at the old address's name
`1.0.0.10.in-addr.arpa` is not touched. -/
theorem c4_amended_transaction :
    db_compare c4L c4K = .ok c4Out ∧
    (c4Out.map Lease.state = [LeaseState.updated]) ∧
    dns_update c4Out =
      some [Line.del "host1.example.com.",
            Line.add "host1.example.com." (RR.A 3600 "10.0.0.2"),
            Line.send,
            Line.del "2.0.0.10.in-addr.arpa",
            Line.add "2.0.0.10.in-addr.arpa" (RR.PTR 3600 "host1.example.com."),
            Line.send] := by
  decide

/-- C5 current set: a single unrelated binding, so the cache row is deleted. -/
def c5L : List Lease :=
  [{ domain := some "other.com", hostname := some "h2", ip := some "1.1.1.1" }]

/-- C5 cache: (example.com, host1) → 10.0.0.1. -/
def c5K : List CacheRecord := [⟨"example.com", "host1", "10.0.0.1"⟩]

/-- C5 compare output: the new binding plus the mangled `DELETED` lease. -/
def c5Out : List Lease :=
  [{ domain := some "other.com", hostname := some "h2", ip := some "1.1.1.1",
     state := .new },
   { domain := some "host1", hostname := some "10.0.0.1", ip := none,
     state := .deleted }]

/-- C5: the code violates the claim.  The lease synthesized for the cache row
(example.com, host1, 10.0.0.1) has domain = "host1" (the cached hostname),
hostname = "10.0.0.1" (the cached address) and NO address at all
(`ip = None`), because `Lease(record[0], record[1], record[2])` passes the
cached domain into the discarded `type` parameter of
`__init__(self, type, domain, hostname, ip)`.  In particular the PTR-delete
cannot be built from the cached address: `dns_update` would hit
`None.split('.')`. -/
theorem c5_deleted_lease_fields_shifted :
    db_compare c5L c5K = .ok c5Out ∧
    (c5Out.filter (fun l => l.state == .deleted)).map (fun l => (l.domain, l.hostname, l.ip))
      = [(some "host1", some "10.0.0.1", none)] ∧
    [(some "host1", some "10.0.0.1", (none : Option String))] ≠
      [(some "example.com", some "host1", some "10.0.0.1")] := by
  decide

/-- C6 current set: one binding already cached with the same address
(`UNCHANGED` after compare) and one new binding. -/
def c6L : List Lease :=
  [{ domain := some "du", hostname := some "hu", ip := some "1.1.1.1" },
   { domain := some "dn", hostname := some "hn", ip := some "2.2.2.2" }]

/-- C6 cache: exactly the first binding of `c6L`. -/
def c6K : List CacheRecord := [⟨"du", "hu", "1.1.1.1"⟩]

/-- C6 compare output: first lease `UNCHANGED`, second `NEW`. -/
def c6Out : List Lease :=
  [{ domain := some "du", hostname := some "hu", ip := some "1.1.1.1",
     state := .unchanged },
   { domain := some "dn", hostname := some "hn", ip := some "2.2.2.2", state := .new }]

/-- C6: the code violates the claim.  With the force flag unset the main loop
computes `processableLeases` (the non-`UNCHANGED` leases) but only uses it for
the emptiness test: it then calls `dns_update(leases)` with the FULL list, so
the `UNCHANGED` binding (du, hu) still contributes a full delete-then-add
group — its records are rewritten, not skipped. -/
theorem c6_unchanged_leases_sent :
    db_compare c6L c6K = .ok c6Out ∧
    run_apply false c6Out =
      some [Line.del "hu.du.",
            Line.add "hu.du." (RR.A 3600 "1.1.1.1"),
            Line.send,
            Line.del "1.1.1.1.in-addr.arpa",
            Line.add "1.1.1.1.in-addr.arpa" (RR.PTR 3600 "hu.du."),
            Line.send,
            Line.del "hn.dn.",
            Line.add "hn.dn." (RR.A 3600 "2.2.2.2"),
            Line.send,
            Line.del "2.2.2.2.in-addr.arpa",
            Line.add "2.2.2.2.in-addr.arpa" (RR.PTR 3600 "hn.dn."),
            Line.send] ∧
    Line.del "hu.du." ∈
      [Line.del "hu.du.",
       Line.add "hu.du." (RR.A 3600 "1.1.1.1"),
       Line.send,
       Line.del "1.1.1.1.in-addr.arpa",
       Line.add "1.1.1.1.in-addr.arpa" (RR.PTR 3600 "hu.du."),
       Line.send,
       Line.del "hn.dn.",
       Line.add "hn.dn." (RR.A 3600 "2.2.2.2"),
       Line.send,
       Line.del "2.2.2.2.in-addr.arpa",
       Line.add "2.2.2.2.in-addr.arpa" (RR.PTR 3600 "hn.dn."),
       Line.send] := by
  decide

/-- C7: the code violates the claim.  Reconciling an empty current set does
not return the cached keys marked `Deleted`: the deleted-records query is
built as `... NOT (domain, hostname) IN (VALUES )` — the `','.join` over zero
leases leaves the `VALUES` list empty — which sqlite rejects with
`OperationalError`, aborting `db_compare` for EVERY cache, in particular the
non-empty one {(example.com, host1) → 10.0.0.1}. -/
theorem c7_empty_current_errors :
    (∀ K : List CacheRecord, db_compare [] K = .error .operationalError) ∧
    db_compare [] [(⟨"example.com", "host1", "10.0.0.1"⟩ : CacheRecord)] =
      .error .operationalError :=
  ⟨fun _ => rfl, rfl⟩

/-- C8: if the external apply fails (`nsupdate` exits non-zero,
`subprocess.check_call` raises), the cycle never reaches `db_update`, so the
persisted cache after the cycle is exactly the input cache, and re-running the
comparison next cycle against that cache recomputes the same diff. -/
theorem c8_failed_apply_keeps_cache (force : Bool) (L : List Lease) (K : List CacheRecord) :
    cacheOf (run_cycle false force L K) = K ∧
    db_compare L (cacheOf (run_cycle false force L K)) = db_compare L K := by
  have h : cacheOf (run_cycle false force L K) = K := by
    unfold run_cycle
    cases hc : db_compare L K with
    | error e => rfl
    | ok leases =>
      dsimp only
      split <;> split
      · cases dns_update leases <;> rfl
      · rfl
      · cases dns_update leases <;> rfl
      · rfl
  exact ⟨h, by rw [h]⟩

/-- C10 counterexample: on the initialization-failure path the claim is
false.  With cache contents {(example.com, host1) → 10.0.0.1} and one current
lease, when `sqlite3.connect` succeeds but the `CREATE TABLE` initialization
raises, `get_db_connection` returns the connection object it just closed —
NOT a null connection — and `db_compare`'s first use `con.cursor()` raises
`sqlite3.ProgrammingError` on the closed connection, not `AttributeError` on
`None`. -/
theorem c10_init_failure_returns_closed_connection :
    get_db_connection DbOpen.initFail [(⟨"example.com", "host1", "10.0.0.1"⟩ : CacheRecord)]
      = some Conn.closed ∧
    some Conn.closed ≠ (none : Option Conn) ∧
    db_compare_run DbOpen.initFail
        [{ domain := some "example.com", hostname := some "host1", ip := some "10.0.0.2" }]
        [(⟨"example.com", "host1", "10.0.0.1"⟩ : CacheRecord)]
      = .error .programmingError ∧
    PyError.programmingError ≠ PyError.attributeError := by
  decide

/-- C10 (amended): when opening or initializing the cache store fails,
`get_db_connection` prints an error and returns instead of aborting, and
`db_compare`'s first use of the returned connection (`con.cursor()` at line
186) faults — but the two failure paths differ.  If `sqlite3.connect` itself
fails, the returned connection is null and the fault is `AttributeError` on
`None`; if `connect` succeeds and the initialization fails, the `except`
block closes the connection, a closed non-null connection is returned, and
the fault is `sqlite3.ProgrammingError`. -/
theorem c10_broken_connection_faults (L : List Lease) (K : List CacheRecord) :
    (get_db_connection DbOpen.connectFail K = none ∧
      db_compare_run DbOpen.connectFail L K = .error .attributeError) ∧
    (get_db_connection DbOpen.initFail K = some Conn.closed ∧
      db_compare_run DbOpen.initFail L K = .error .programmingError) :=
  ⟨⟨rfl, rfl⟩, ⟨rfl, rfl⟩⟩

/-- Effect of one command-file line on a single owner name's slot. -/
def lineEffect (n : String) (v : Option RR) : Line → Option RR
  | .del m => if n = m then none else v
  | .add m r => if n = m then some r else v
  | .send => v

/-- Effect of a whole command file on a single owner name's slot. -/
def applyAt (t : List Line) (n : String) (v : Option RR) : Option RR :=
  t.foldl (lineEffect n) v

theorem applyLine_apply (s : Store) (l : Line) (n : String) :
    applyLine s l n = lineEffect n (s n) l := by
  cases l with
  | del m => rfl
  | add m r => rfl
  | send => rfl

theorem applyLines_eq_applyAt (t : List Line) (s : Store) (n : String) :
    applyLines t s n = applyAt t n (s n) := by
  induction t generalizing s with
  | nil => rfl
  | cons l t ih =>
    show applyLines t (applyLine s l) n = _
    rw [ih, applyLine_apply]
    rfl

theorem applyAt_const_or_id (t : List Line) (n : String) :
    (∀ v w, applyAt t n v = applyAt t n w) ∨ (∀ v, applyAt t n v = v) := by
  induction t with
  | nil => exact Or.inr (fun _ => rfl)
  | cons l t ih =>
    rcases ih with h | h
    · exact Or.inl (fun v w => h _ _)
    · cases l with
      | send => exact Or.inr (fun v => h v)
      | del m =>
        by_cases hc : n = m
        · refine Or.inl (fun v w => ?_)
          show applyAt t n (if n = m then none else v) = applyAt t n (if n = m then none else w)
          rw [if_pos hc, if_pos hc]
        · refine Or.inr (fun v => ?_)
          show applyAt t n (if n = m then none else v) = v
          rw [if_neg hc]
          exact h v
      | add m r =>
        by_cases hc : n = m
        · refine Or.inl (fun v w => ?_)
          show applyAt t n (if n = m then some r else v) = applyAt t n (if n = m then some r else w)
          rw [if_pos hc, if_pos hc]
        · refine Or.inr (fun v => ?_)
          show applyAt t n (if n = m then some r else v) = v
          rw [if_neg hc]
          exact h v

theorem applyAt_idem (t : List Line) (n : String) (v : Option RR) :
    applyAt t n (applyAt t n v) = applyAt t n v := by
  rcases applyAt_const_or_id t n with h | h
  · exact h _ _
  · exact h _

/-- C3: idempotence of a built transaction.  Every name's slot is driven
through delete/add assignments whose final value does not depend on the
starting value once the name is written at all, so applying the transaction
built by `dns_update` a second time leaves every record exactly as after the
first application. -/
theorem c3_transaction_idempotent (L : List Lease) (t : List Line)
    (h : dns_update L = some t) (s : Store) (n : String) :
    applyLines t (applyLines t s) n = applyLines t s n := by
  simp only [applyLines_eq_applyAt]
  exact applyAt_idem t n (s n)

/-- C3 witness lease list: one `NEW` binding. -/
def c3L : List Lease :=
  [{ domain := some "example.com", hostname := some "host1", ip := some "10.0.0.2",
     state := .new }]

/-- C3 witness transaction: what `dns_update` builds from `c3L`. -/
def c3T : List Line :=
  [Line.del "host1.example.com.",
   Line.add "host1.example.com." (RR.A 3600 "10.0.0.2"),
   Line.send,
   Line.del "2.0.0.10.in-addr.arpa",
   Line.add "2.0.0.10.in-addr.arpa" (RR.PTR 3600 "host1.example.com."),
   Line.send]

/-- C3 witness: the idempotence theorem applied to a concrete transaction. -/
theorem c3_transaction_idempotent_witness :
    applyLines c3T (applyLines c3T emptyStore) "host1.example.com." =
      applyLines c3T emptyStore "host1.example.com." :=
  c3_transaction_idempotent c3L c3T (by decide) emptyStore "host1.example.com."

theorem scanFrom_append (st : ScanSt) (a b : List String) :
    scanFrom st (a ++ b) =
      match scanFrom st a with
      | .error e => .error e
      | .ok st1 => scanFrom st1 b := by
  induction a generalizing st with
  | nil => rfl
  | cons l ls ih =>
    have hL : scanFrom st ((l :: ls) ++ b) =
        match scanLine st l with
        | Except.error e => Except.error e
        | Except.ok st1 => scanFrom st1 (ls ++ b) := rfl
    have hR : scanFrom st (l :: ls) =
        match scanLine st l with
        | Except.error e => Except.error e
        | Except.ok st1 => scanFrom st1 ls := rfl
    rw [hL, hR]
    cases scanLine st l with
    | error e => rfl
    | ok st1 => exact ih st1

/-- C9 (amended): the fetch raises a mismatch error exactly when a second
`<ipaddr>` (resp. `<hostname>`) line is read while the lease being assembled
already carries an address (resp. hostname); a duplicate that arrives after
the partial lease was completed and reset (all three fields seen) escapes the
check.  Formally: if scanning a prefix leaves state `st`, and the next line is
an `<ipaddr>` line while `st.sl.ip` is set (or a `<hostname>` line while
`st.sl.hostname` is set), the whole fetch errors whatever lines follow. -/
theorem c9_amended_duplicate_detection (pre : List String) (line : String)
    (post : List String) (st : ScanSt)
    (hpre : scanAll pre = .ok st)
    (hdom : strStartsWith line "<domain>" = false) :
    (strStartsWith line "<ipaddr>" = true → st.sl.ip.isSome = true →
      get_static_leases (pre ++ line :: post) =
        .error ("Static lease IPADDR mismatch in domain " ++ pyStr st.sl.domain)) ∧
    (strStartsWith line "<ipaddr>" = false → strStartsWith line "<hostname>" = true →
      st.sl.hostname.isSome = true →
      get_static_leases (pre ++ line :: post) =
        .error ("Static lease HOSTNAME mismatch in domain " ++ pyStr st.sl.domain)) := by
  constructor
  · intro hip hsome
    obtain ⟨v, hv⟩ := Option.isSome_iff_exists.mp hsome
    have hline : scanLine st line =
        .error ("Static lease IPADDR mismatch in domain " ++ pyStr st.sl.domain) := by
      unfold scanLine
      simp [hdom, hip, hv]
    have hstep : scanAll (pre ++ line :: post) =
        .error ("Static lease IPADDR mismatch in domain " ++ pyStr st.sl.domain) := by
      unfold scanAll at hpre ⊢
      rw [scanFrom_append, hpre]
      show (match scanLine st line with
            | .error e => Except.error e
            | .ok st1 => scanFrom st1 post) = _
      rw [hline]
    unfold get_static_leases
    rw [hstep]
  · intro hip hhost hsome
    obtain ⟨v, hv⟩ := Option.isSome_iff_exists.mp hsome
    have hline : scanLine st line =
        .error ("Static lease HOSTNAME mismatch in domain " ++ pyStr st.sl.domain) := by
      unfold scanLine
      simp [hdom, hip, hhost, hv]
    have hstep : scanAll (pre ++ line :: post) =
        .error ("Static lease HOSTNAME mismatch in domain " ++ pyStr st.sl.domain) := by
      unfold scanAll at hpre ⊢
      rw [scanFrom_append, hpre]
      show (match scanLine st line with
            | .error e => Except.error e
            | .ok st1 => scanFrom st1 post) = _
      rw [hline]
    unfold get_static_leases
    rw [hstep]

/-- C9 witness: a concrete duplicated `<ipaddr>` detected mid-entry. -/
theorem c9_amended_duplicate_detection_witness :
    get_static_leases
        ["<domain>d</domain>", "<ipaddr>1.1.1.1</ipaddr>", "<ipaddr>2.2.2.2</ipaddr>"] =
      .error ("Static lease IPADDR mismatch in domain " ++ pyStr (some "d")) :=
  (c9_amended_duplicate_detection ["<domain>d</domain>", "<ipaddr>1.1.1.1</ipaddr>"]
      "<ipaddr>2.2.2.2</ipaddr>" []
      ⟨{ domain := some "d", hostname := none, ip := some "1.1.1.1",
         state := .unchanged }, []⟩
      (by decide) (by decide)).1 (by decide) (by decide)

/-- C9 counterexample entry: one staticmap with two `<hostname>` children. -/
def c9Entry : List SMField :=
  [SMField.ipaddr "1.1.1.1", SMField.hostname "h1", SMField.hostname "h2"]

/-- C9 counterexample config: one interface group with domain `d` and the
single duplicated-hostname entry. -/
def c9Cfg : List (String × List (List SMField)) := [("d", [c9Entry])]

/-- C9 counterexample: a single config entry carrying TWO hostnames under the
same grouping key for which the fetch does NOT raise: after the `<ipaddr>` and
first `<hostname>` line the partial lease is complete and is reset, so the
second `<hostname>` lands in a fresh lease and no mismatch is detected — the
fetch returns a binding set instead of raising. -/
theorem c9_duplicate_hostname_not_detected :
    (c9Entry.filter SMField.isHostname).length = 2 ∧
    xmllintLines c9Cfg =
      ["<domain>d</domain>", "<ipaddr>1.1.1.1</ipaddr>", "<hostname>h1</hostname>",
       "<hostname>h2</hostname>"] ∧
    get_static_leases (xmllintLines c9Cfg) =
      .ok [{ domain := some "d", hostname := some "h1", ip := some "1.1.1.1",
             state := .unchanged }] := by
  decide

theorem insertByState_perm (x : Lease) (l : List Lease) :
    (insertByState x l).Perm (x :: l) := by
  induction l with
  | nil => exact List.Perm.refl _
  | cons y ys ih =>
    unfold insertByState
    by_cases hc : x.state.toNat ≤ y.state.toNat
    · rw [if_pos hc]
    · rw [if_neg hc]
      exact (ih.cons y).trans (List.Perm.swap x y ys)

theorem sortByState_perm (l : List Lease) : (sortByState l).Perm l := by
  induction l with
  | nil => exact List.Perm.refl _
  | cons x xs ih =>
    exact (insertByState_perm x (sortByState xs)).trans (ih.cons x)

theorem classify_domain (K : List CacheRecord) (l : Lease) :
    (classify K l).domain = l.domain := by
  unfold classify
  cases findCached K l.domain l.hostname with
  | none => rfl
  | some r =>
    show (if (some r.ip != l.ip) = true then { l with state := LeaseState.updated } else l).domain
        = l.domain
    by_cases hc : (some r.ip != l.ip) = true
    · rw [if_pos hc]
    · rw [if_neg hc]

theorem classify_hostname (K : List CacheRecord) (l : Lease) :
    (classify K l).hostname = l.hostname := by
  unfold classify
  cases findCached K l.domain l.hostname with
  | none => rfl
  | some r =>
    show (if (some r.ip != l.ip) = true then { l with state := LeaseState.updated } else l).hostname
        = l.hostname
    by_cases hc : (some r.ip != l.ip) = true
    · rw [if_pos hc]
    · rw [if_neg hc]

theorem classify_ip (K : List CacheRecord) (l : Lease) :
    (classify K l).ip = l.ip := by
  unfold classify
  cases findCached K l.domain l.hostname with
  | none => rfl
  | some r =>
    show (if (some r.ip != l.ip) = true then { l with state := LeaseState.updated } else l).ip
        = l.ip
    by_cases hc : (some r.ip != l.ip) = true
    · rw [if_pos hc]
    · rw [if_neg hc]

theorem classify_state_ne_deleted (K : List CacheRecord) (l : Lease)
    (hl : l.state ≠ .deleted) : (classify K l).state ≠ .deleted := by
  unfold classify
  cases findCached K l.domain l.hostname with
  | none => intro hcon; cases hcon
  | some r =>
    show (if (some r.ip != l.ip) = true then { l with state := LeaseState.updated } else l).state
        ≠ LeaseState.deleted
    by_cases hc : (some r.ip != l.ip) = true
    · rw [if_pos hc]; intro hcon; cases hcon
    · rw [if_neg hc]; exact hl

theorem findCached_mem {K : List CacheRecord} {d h : Option String} {r : CacheRecord}
    (hf : findCached K d h = some r) :
    r ∈ K ∧ d = some r.domain ∧ h = some r.hostname := by
  have h1 := List.mem_of_find?_eq_some hf
  have h2 := List.find?_some hf
  rw [Bool.and_eq_true, beq_iff_eq, beq_iff_eq] at h2
  exact ⟨h1, h2.1, h2.2⟩

theorem findCached_self {K : List CacheRecord} (hK : (K.map recKey).Nodup)
    {r : CacheRecord} (hr : r ∈ K) :
    findCached K (some r.domain) (some r.hostname) = some r := by
  induction K with
  | nil => cases hr
  | cons a K ih =>
    rw [List.map_cons, List.nodup_cons] at hK
    by_cases hc : (some r.domain == some a.domain && some r.hostname == some a.hostname) = true
    · have hc2 := hc
      rw [Bool.and_eq_true, beq_iff_eq, beq_iff_eq, Option.some_inj, Option.some_inj] at hc2
      rcases List.mem_cons.mp hr with hra | hrK
      · subst hra
        exact List.find?_cons_of_pos _ hc
      · exfalso
        apply hK.1
        have hkey : recKey a = recKey r := by
          show (a.domain, a.hostname) = (r.domain, r.hostname)
          rw [hc2.1, hc2.2]
        rw [hkey]
        exact List.mem_map_of_mem recKey hrK
    · have hra : r ≠ a := by
        rintro rfl
        apply hc
        simp
      have hrK : r ∈ K := (List.mem_cons.mp hr).resolve_left hra
      have hstep : findCached (a :: K) (some r.domain) (some r.hostname) =
          findCached K (some r.domain) (some r.hostname) :=
        List.find?_cons_of_neg _ hc
      rw [hstep]
      exact ih hK.2 hrK

theorem mem_upsert (c : List CacheRecord) (d h i : String) (r : CacheRecord) :
    r ∈ upsert c d h i ↔
      r = ⟨d, h, i⟩ ∨ (r ∈ c ∧ ¬(r.domain = d ∧ r.hostname = h)) := by
  unfold upsert
  by_cases hex : (c.any (fun x => x.domain == d && x.hostname == h)) = true
  · rw [if_pos hex, List.mem_map]
    constructor
    · rintro ⟨x, hxc, hxe⟩
      by_cases hk : (x.domain == d && x.hostname == h) = true
      · rw [if_pos hk] at hxe
        exact Or.inl hxe.symm
      · rw [if_neg hk] at hxe
        subst hxe
        refine Or.inr ⟨hxc, fun hcon => hk ?_⟩
        rw [Bool.and_eq_true, beq_iff_eq, beq_iff_eq]
        exact ⟨hcon.1, hcon.2⟩
    · rintro (rfl | ⟨hrc, hrk⟩)
      · rw [List.any_eq_true] at hex
        obtain ⟨x, hxc, hxk⟩ := hex
        exact ⟨x, hxc, by rw [if_pos hxk]⟩
      · refine ⟨r, hrc, ?_⟩
        have hk : ¬(r.domain == d && r.hostname == h) = true := by
          intro hk
          rw [Bool.and_eq_true, beq_iff_eq, beq_iff_eq] at hk
          exact hrk hk
        rw [if_neg hk]
  · rw [if_neg hex, List.mem_append, List.mem_singleton]
    rw [Bool.not_eq_true, List.any_eq_false] at hex
    constructor
    · rintro (hrc | rfl)
      · refine Or.inr ⟨hrc, fun hcon => hex r hrc ?_⟩
        rw [Bool.and_eq_true, beq_iff_eq, beq_iff_eq]
        exact ⟨hcon.1, hcon.2⟩
      · exact Or.inl rfl
    · rintro (rfl | ⟨hrc, _⟩)
      · exact Or.inr rfl
      · exact Or.inl hrc

theorem keys_upsert_nodup (c : List CacheRecord) (d h i : String)
    (hc : (c.map recKey).Nodup) : ((upsert c d h i).map recKey).Nodup := by
  unfold upsert
  by_cases hex : (c.any (fun x => x.domain == d && x.hostname == h)) = true
  · rw [if_pos hex, List.map_map]
    have heq : c.map (recKey ∘ fun r =>
        if r.domain == d && r.hostname == h then (⟨d, h, i⟩ : CacheRecord) else r) =
        c.map recKey := by
      apply List.map_congr_left
      intro x _
      by_cases hk : (x.domain == d && x.hostname == h) = true
      · have hk2 := hk
        rw [Bool.and_eq_true, beq_iff_eq, beq_iff_eq] at hk2
        show recKey (if x.domain == d && x.hostname == h then ⟨d, h, i⟩ else x) = recKey x
        rw [if_pos hk]
        show (d, h) = (x.domain, x.hostname)
        rw [hk2.1, hk2.2]
      · show recKey (if x.domain == d && x.hostname == h then ⟨d, h, i⟩ else x) = recKey x
        rw [if_neg hk]
    rw [heq]
    exact hc
  · rw [if_neg hex, List.map_append]
    rw [Bool.not_eq_true, List.any_eq_false] at hex
    refine List.Nodup.append hc (by simp) ?_
    intro k hk1 hk2
    rw [show ([(⟨d, h, i⟩ : CacheRecord)]).map recKey = [(d, h)] from rfl,
      List.mem_singleton] at hk2
    subst hk2
    obtain ⟨x, hxc, hxk⟩ := List.mem_map.mp hk1
    apply hex x hxc
    rw [Bool.and_eq_true, beq_iff_eq, beq_iff_eq]
    exact ⟨congrArg Prod.fst hxk, congrArg Prod.snd hxk⟩

theorem mem_foldl_upsert (m : List (String × String × String)) (c : List CacheRecord)
    (hm : (m.map (fun t => (t.1, t.2.1))).Nodup) (r : CacheRecord) :
    r ∈ m.foldl (fun acc t => upsert acc t.1 t.2.1 t.2.2) c ↔
      (r.domain, r.hostname, r.ip) ∈ m ∨
        (r ∈ c ∧ (r.domain, r.hostname) ∉ m.map (fun t => (t.1, t.2.1))) := by
  induction m generalizing c with
  | nil => simp
  | cons t m ih =>
    rw [List.map_cons, List.nodup_cons] at hm
    show r ∈ m.foldl _ (upsert c t.1 t.2.1 t.2.2) ↔ _
    rw [ih _ hm.2, mem_upsert]
    have hrec : (r = (⟨t.1, t.2.1, t.2.2⟩ : CacheRecord)) ↔ ((r.domain, r.hostname, r.ip) = t) := by
      cases r
      constructor
      · rintro h2
        rw [h2]
      · intro h2
        subst h2
        rfl
    have hTD : ((r.domain, r.hostname, r.ip) = t) →
        (r.domain = t.1 ∧ r.hostname = t.2.1) :=
      fun hT => ⟨congrArg Prod.fst hT, congrArg (fun p => p.2.1) hT⟩
    have hTE : ((r.domain, r.hostname, r.ip) = t) →
        (r.domain, r.hostname) ∉ m.map (fun t => (t.1, t.2.1)) := by
      intro hT hE
      obtain ⟨h1, h2⟩ := hTD hT
      rw [h1, h2] at hE
      exact hm.1 hE
    have hAE : (r.domain, r.hostname, r.ip) ∈ m →
        (r.domain, r.hostname) ∈ m.map (fun t => (t.1, t.2.1)) := by
      intro hA
      exact List.mem_map_of_mem (fun t => (t.1, t.2.1)) hA
    rw [hrec, List.mem_cons, List.map_cons, List.mem_cons]
    simp only [Prod.mk.injEq]
    tauto

theorem keys_foldl_upsert_nodup (m : List (String × String × String)) (c : List CacheRecord)
    (hc : (c.map recKey).Nodup) :
    ((m.foldl (fun acc t => upsert acc t.1 t.2.1 t.2.2) c).map recKey).Nodup := by
  induction m generalizing c with
  | nil => exact hc
  | cons t m ih => exact ih _ (keys_upsert_nodup _ _ _ _ hc)

theorem nodup_getD_keys (L : List Lease)
    (hwf : ∀ l ∈ L, (∃ d, l.domain = some d) ∧ (∃ h, l.hostname = some h) ∧
      (∃ i, l.ip = some i))
    (hLnd : (L.map leaseKey).Nodup) :
    (L.map (fun l => (l.domain.getD "", l.hostname.getD ""))).Nodup := by
  have hmm : L.map (fun l => (l.domain.getD "", l.hostname.getD "")) =
      (L.map leaseKey).map (fun k => (k.1.getD "", k.2.getD "")) := by
    rw [List.map_map]
    rfl
  rw [hmm]
  apply List.Nodup.map_on _ hLnd
  intro x hx y hy hxy
  obtain ⟨lx, hlx, hlxk⟩ := List.mem_map.mp hx
  obtain ⟨ly, hly, hlyk⟩ := List.mem_map.mp hy
  obtain ⟨⟨dx, hdx⟩, ⟨ex, hex⟩, _⟩ := hwf lx hlx
  obtain ⟨⟨dy, hdy⟩, ⟨ey, hey⟩, _⟩ := hwf ly hly
  have hxe : x = (some dx, some ex) := by
    rw [← hlxk]
    show leaseKey lx = _
    rw [leaseKey, hdx, hex]
  have hye : y = (some dy, some ey) := by
    rw [← hlyk]
    show leaseKey ly = _
    rw [leaseKey, hdy, hey]
  rw [hxe, hye] at hxy ⊢
  have h1 : dx = dy := by
    have := congrArg Prod.fst hxy
    simpa using this
  have h2 : ex = ey := by
    have := congrArg Prod.snd hxy
    simpa using this
  rw [h1, h2]

/-- C2: after a cycle whose apply and cache-update steps both succeed, the
cache holds exactly one row per `(domain, hostname)` key of the current lease
list, each mapped to that lease's address, with no stale and no missing keys.
Hypotheses: the current leases are as `get_static_leases` produces them
(all three fields present, state `UNCHANGED`, keys unique), the cache keys are
unique (the table's primary key), `db_compare` returned `out`, building the
nsupdate file succeeded (`dns_update out` did not raise — this is what rules
out any `DELETED` lease, whose `ip` is always `None`), and `db_update`
committed `K2`. -/
theorem c2_cache_mirrors_current (L : List Lease) (K : List CacheRecord)
    (out : List Lease) (K2 : List CacheRecord)
    (hwf : L.all (fun l => l.domain.isSome && l.hostname.isSome && l.ip.isSome) = true)
    (hst : L.all (fun l => l.state == LeaseState.unchanged) = true)
    (hLnd : (L.map leaseKey).Nodup)
    (hKnd : (K.map recKey).Nodup)
    (hcmp : db_compare L K = .ok out)
    (hdns : (dns_update out).isSome = true)
    (hupd : db_update out K = some K2) :
    mirrors K2 L = true := by
  rw [List.all_eq_true] at hwf hst
  have hwf3 : ∀ l ∈ L, (∃ d, l.domain = some d) ∧ (∃ h, l.hostname = some h) ∧
      (∃ i, l.ip = some i) := by
    intro l hl
    have hb := hwf l hl
    rw [Bool.and_eq_true, Bool.and_eq_true] at hb
    exact ⟨Option.isSome_iff_exists.mp hb.1.1, Option.isSome_iff_exists.mp hb.1.2,
      Option.isSome_iff_exists.mp hb.2⟩
  have hstu : ∀ l ∈ L, l.state = LeaseState.unchanged := by
    intro l hl
    have hb := hst l hl
    rwa [beq_iff_eq] at hb
  simp only [db_compare] at hcmp
  split at hcmp
  · exact absurd hcmp (by simp)
  rw [Except.ok.injEq] at hcmp
  set L1 := L.map (classify K) with hL1
  set E := L1.map (fun x => (pyStr x.domain, pyStr x.hostname)) with hE
  have hnoip : ∀ x ∈ out, ¬(x.ip.isNone = true) := by
    have hanyf : out.any (fun l => l.ip.isNone) = false := by
      cases hb : out.any (fun l => l.ip.isNone) with
      | false => rfl
      | true =>
        unfold dns_update at hdns
        rw [hb] at hdns
        simp at hdns
    exact List.any_eq_false.mp hanyf
  have hperm0 := sortByState_perm (L1 ++ deletedLeases K E)
  have hdelnil : deletedLeases K E = [] := by
    rw [List.eq_nil_iff_forall_not_mem]
    intro x hx
    have hxip : x.ip = none := by
      unfold deletedLeases at hx
      obtain ⟨r, _, hrx⟩ := List.mem_map.mp hx
      rw [← hrx]
    have hxout : x ∈ out := by
      rw [← hcmp]
      exact hperm0.mem_iff.mpr (List.mem_append_right _ hx)
    exact hnoip x hxout (by rw [hxip]; rfl)
  rw [hdelnil, List.append_nil] at hcmp hperm0
  have hperm : out.Perm L1 := by
    rw [← hcmp]
    exact hperm0
  have hKcov : ∀ r ∈ K, ∃ x ∈ L1, pyStr x.domain = r.domain ∧ pyStr x.hostname = r.hostname := by
    intro r hr
    have hfil : K.filter (fun rr => !(E.contains (rr.domain, rr.hostname))) = [] := by
      have hdn := hdelnil
      unfold deletedLeases at hdn
      rwa [List.map_eq_nil_iff] at hdn
    have hnp := List.filter_eq_nil_iff.mp hfil r hr
    have hcont : E.contains (r.domain, r.hostname) = true := by
      cases hcc : E.contains (r.domain, r.hostname) with
      | true => rfl
      | false => exact absurd (by rw [hcc]; rfl) hnp
    have hmemE : (r.domain, r.hostname) ∈ E := by
      rw [List.contains_eq_any_beq, List.any_eq_true] at hcont
      obtain ⟨k, hkE, hkb⟩ := hcont
      rw [beq_iff_eq] at hkb
      rwa [← hkb] at hkE
    rw [hE] at hmemE
    obtain ⟨x, hxL1, hxk⟩ := List.mem_map.mp hmemE
    exact ⟨x, hxL1, congrArg Prod.fst hxk, congrArg Prod.snd hxk⟩
  have hwfout : ∀ x ∈ out, ∃ l0, l0 ∈ L ∧ classify K l0 = x := by
    intro x hx
    have hxm := hperm.subset hx
    rw [hL1] at hxm
    exact List.mem_map.mp hxm
  have hdelout : out.filter (fun x => x.state == LeaseState.deleted) = [] := by
    rw [List.filter_eq_nil_iff]
    intro x hx
    obtain ⟨l0, hl0, hlx⟩ := hwfout x hx
    intro hxs
    rw [beq_iff_eq] at hxs
    apply classify_state_ne_deleted K l0 (by rw [hstu l0 hl0]; intro hcon; cases hcon)
    rw [hlx]
    exact hxs
  simp only [db_update] at hupd
  rw [hdelout] at hupd
  simp only [List.map_nil, List.any_nil, Bool.not_false, List.filter_true] at hupd
  split at hupd
  · exact absurd hupd (by simp)
  rw [Option.some.injEq] at hupd
  set modsO := (out.filter (fun x => x.state == LeaseState.updated ||
      x.state == LeaseState.new)).map (fun y => (y.domain, y.hostname, y.ip)) with hmodsO
  set m := modsO.map (fun t => (t.1.getD "", t.2.1.getD "", t.2.2.getD "")) with hm
  have hfold : m.foldl (fun acc t => upsert acc t.1 t.2.1 t.2.2) K = K2 := by
    rw [hm, List.foldl_map]
    exact hupd
  have hkeysm : (m.map (fun t => (t.1, t.2.1))).Nodup := by
    rw [hm, hmodsO, List.map_map, List.map_map]
    show ((out.filter (fun x => x.state == LeaseState.updated ||
        x.state == LeaseState.new)).map
        (fun y => (y.domain.getD "", y.hostname.getD ""))).Nodup
    have hp2 := hperm.filter (fun x => x.state == LeaseState.updated ||
        x.state == LeaseState.new)
    apply ((hp2.map (fun y : Lease => (y.domain.getD "", y.hostname.getD ""))).symm).nodup
    apply List.Nodup.sublist ((List.filter_sublist L1).map _)
    rw [hL1, List.map_map]
    show (L.map (fun l =>
      ((classify K l).domain.getD "", (classify K l).hostname.getD ""))).Nodup
    have hcong : L.map (fun l =>
        ((classify K l).domain.getD "", (classify K l).hostname.getD "")) =
        L.map (fun l => (l.domain.getD "", l.hostname.getD "")) := by
      apply List.map_congr_left
      intro l _
      rw [classify_domain, classify_hostname]
    rw [hcong]
    exact nodup_getD_keys L hwf3 hLnd
  have hK2mem : ∀ r : CacheRecord, r ∈ K2 ↔
      ((r.domain, r.hostname, r.ip) ∈ m ∨
        (r ∈ K ∧ (r.domain, r.hostname) ∉ m.map (fun t => (t.1, t.2.1)))) := by
    intro r
    rw [← hfold]
    exact mem_foldl_upsert m K hkeysm r
  unfold mirrors
  rw [Bool.and_eq_true, Bool.and_eq_true]
  refine ⟨⟨?_, ?_⟩, ?_⟩
  · -- no stale rows: every cached row is one of the current bindings
    rw [List.all_eq_true]
    intro r hr
    rw [List.any_eq_true]
    rcases (hK2mem r).mp hr with htrip | ⟨hrK, hknot⟩
    · rw [hm] at htrip
      obtain ⟨mo, hmo, hext⟩ := List.mem_map.mp htrip
      rw [hmodsO] at hmo
      obtain ⟨x, hxf, hxt⟩ := List.mem_map.mp hmo
      rw [List.mem_filter] at hxf
      obtain ⟨l0, hl0, hlx⟩ := hwfout x hxf.1
      obtain ⟨⟨d0, hd0⟩, ⟨h0, hh0⟩, ⟨i0, hi0⟩⟩ := hwf3 l0 hl0
      have hxd : x.domain = some d0 := by rw [← hlx, classify_domain]; exact hd0
      have hxh : x.hostname = some h0 := by rw [← hlx, classify_hostname]; exact hh0
      have hxi : x.ip = some i0 := by rw [← hlx, classify_ip]; exact hi0
      have hext2 : (x.domain.getD "", x.hostname.getD "", x.ip.getD "")
          = (r.domain, r.hostname, r.ip) := by
        rw [← hext, ← hxt]
      rw [Prod.mk.injEq, Prod.mk.injEq] at hext2
      obtain ⟨he1, he2, he3⟩ := hext2
      rw [hxd, Option.getD_some] at he1
      rw [hxh, Option.getD_some] at he2
      rw [hxi, Option.getD_some] at he3
      refine ⟨l0, hl0, ?_⟩
      simp only [matchesB, Bool.and_eq_true, beq_iff_eq]
      exact ⟨⟨by rw [hd0, he1], by rw [hh0, he2]⟩, by rw [hi0, he3]⟩
    · obtain ⟨x, hxL1, hxd, hxh⟩ := hKcov r hrK
      have hxout : x ∈ out := hperm.symm.subset hxL1
      rw [hL1] at hxL1
      obtain ⟨l0, hl0, hlx⟩ := List.mem_map.mp hxL1
      obtain ⟨⟨d0, hd0⟩, ⟨h0, hh0⟩, ⟨i0, hi0⟩⟩ := hwf3 l0 hl0
      have hxd0 : x.domain = some d0 := by rw [← hlx, classify_domain]; exact hd0
      have hxh0 : x.hostname = some h0 := by rw [← hlx, classify_hostname]; exact hh0
      have hdr : d0 = r.domain := by
        rw [hxd0] at hxd
        exact hxd
      have hhr : h0 = r.hostname := by
        rw [hxh0] at hxh
        exact hxh
      by_cases hps : (x.state == LeaseState.updated || x.state == LeaseState.new) = true
      · exfalso
        apply hknot
        have hmem1 : x ∈ out.filter (fun x => x.state == LeaseState.updated ||
            x.state == LeaseState.new) := List.mem_filter.mpr ⟨hxout, hps⟩
        have hmem2 := List.mem_map_of_mem
          (fun y : Lease => (y.domain, y.hostname, y.ip)) hmem1
        rw [← hmodsO] at hmem2
        have hmem3 := List.mem_map_of_mem
          (fun t : Option String × Option String × Option String =>
            (t.1.getD "", t.2.1.getD "", t.2.2.getD "")) hmem2
        rw [← hm] at hmem3
        have hmem4 := List.mem_map_of_mem
          (fun t : String × String × String => (t.1, t.2.1)) hmem3
        have hkeq : ((fun t : String × String × String => (t.1, t.2.1))
            ((fun t : Option String × Option String × Option String =>
              (t.1.getD "", t.2.1.getD "", t.2.2.getD ""))
              ((fun y : Lease => (y.domain, y.hostname, y.ip)) x)))
            = (r.domain, r.hostname) := by
          show (x.domain.getD "", x.hostname.getD "") = (r.domain, r.hostname)
          rw [hxd0, hxh0, Option.getD_some, Option.getD_some, hdr, hhr]
        rw [hkeq] at hmem4
        exact hmem4
      · cases hf : findCached K l0.domain l0.hostname with
        | none =>
          exfalso
          apply hps
          have hxs : x.state = LeaseState.new := by
            rw [← hlx]
            unfold classify
            rw [hf]
          rw [hxs]
          simp
        | some rc =>
          by_cases hip : (some rc.ip != l0.ip) = true
          · exfalso
            apply hps
            have hxs : x.state = LeaseState.updated := by
              rw [← hlx]
              unfold classify
              rw [hf]
              show (if (some rc.ip != l0.ip) = true then
                  { l0 with state := LeaseState.updated } else l0).state = LeaseState.updated
              rw [if_pos hip]
            rw [hxs]
            simp
          · have hrc := findCached_mem hf
            have hipq : some rc.ip = l0.ip := by
              rw [show ((some rc.ip != l0.ip) = true) ↔ (some rc.ip ≠ l0.ip)
                from bne_iff_ne] at hip
              exact not_not.mp hip
            have hrcd : rc.domain = r.domain := by
              have h1 : some rc.domain = some d0 := by rw [← hrc.2.1, hd0]
              rw [Option.some_inj] at h1
              rw [h1, hdr]
            have hrch : rc.hostname = r.hostname := by
              have h1 : some rc.hostname = some h0 := by rw [← hrc.2.2, hh0]
              rw [Option.some_inj] at h1
              rw [h1, hhr]
            have hrcr : rc = r := by
              apply List.inj_on_of_nodup_map hKnd hrc.1 hrK
              show (rc.domain, rc.hostname) = (r.domain, r.hostname)
              rw [hrcd, hrch]
            refine ⟨l0, hl0, ?_⟩
            simp only [matchesB, Bool.and_eq_true, beq_iff_eq]
            refine ⟨⟨by rw [hd0, hdr], by rw [hh0, hhr]⟩, ?_⟩
            rw [← hipq, hrcr]
  · -- no missing rows: every current binding is cached
    rw [List.all_eq_true]
    intro l0 hl0
    rw [List.any_eq_true]
    obtain ⟨⟨d0, hd0⟩, ⟨h0, hh0⟩, ⟨i0, hi0⟩⟩ := hwf3 l0 hl0
    have hxL1 : classify K l0 ∈ L1 := by
      rw [hL1]
      exact List.mem_map_of_mem _ hl0
    have hxout : classify K l0 ∈ out := hperm.symm.subset hxL1
    have hxd0 : (classify K l0).domain = some d0 := by rw [classify_domain]; exact hd0
    have hxh0 : (classify K l0).hostname = some h0 := by rw [classify_hostname]; exact hh0
    have hxi0 : (classify K l0).ip = some i0 := by rw [classify_ip]; exact hi0
    by_cases hps : ((classify K l0).state == LeaseState.updated ||
        (classify K l0).state == LeaseState.new) = true
    · refine ⟨⟨d0, h0, i0⟩, ?_, ?_⟩
      · apply (hK2mem ⟨d0, h0, i0⟩).mpr
        left
        show (d0, h0, i0) ∈ m
        have hmem1 : classify K l0 ∈ out.filter (fun x => x.state == LeaseState.updated ||
            x.state == LeaseState.new) := List.mem_filter.mpr ⟨hxout, hps⟩
        have hmem2 := List.mem_map_of_mem
          (fun y : Lease => (y.domain, y.hostname, y.ip)) hmem1
        rw [← hmodsO] at hmem2
        have hmem3 := List.mem_map_of_mem
          (fun t : Option String × Option String × Option String =>
            (t.1.getD "", t.2.1.getD "", t.2.2.getD "")) hmem2
        rw [← hm] at hmem3
        have hkeq : ((fun t : Option String × Option String × Option String =>
            (t.1.getD "", t.2.1.getD "", t.2.2.getD ""))
            ((fun y : Lease => (y.domain, y.hostname, y.ip)) (classify K l0)))
            = (d0, h0, i0) := by
          show ((classify K l0).domain.getD "", (classify K l0).hostname.getD "",
            (classify K l0).ip.getD "") = (d0, h0, i0)
          rw [hxd0, hxh0, hxi0, Option.getD_some, Option.getD_some, Option.getD_some]
        rw [hkeq] at hmem3
        exact hmem3
      · simp only [matchesB, Bool.and_eq_true, beq_iff_eq]
        exact ⟨⟨hd0, hh0⟩, hi0⟩
    · cases hf : findCached K l0.domain l0.hostname with
      | none =>
        exfalso
        apply hps
        have hxs : (classify K l0).state = LeaseState.new := by
          unfold classify
          rw [hf]
        rw [hxs]
        simp
      | some rc =>
        by_cases hip : (some rc.ip != l0.ip) = true
        · exfalso
          apply hps
          have hxs : (classify K l0).state = LeaseState.updated := by
            unfold classify
            rw [hf]
            show (if (some rc.ip != l0.ip) = true then
                { l0 with state := LeaseState.updated } else l0).state = LeaseState.updated
            rw [if_pos hip]
          rw [hxs]
          simp
        · have hrc := findCached_mem hf
          have hipq : some rc.ip = l0.ip := by
            rw [show ((some rc.ip != l0.ip) = true) ↔ (some rc.ip ≠ l0.ip)
              from bne_iff_ne] at hip
            exact not_not.mp hip
          refine ⟨rc, ?_, ?_⟩
          · apply (hK2mem rc).mpr
            right
            refine ⟨hrc.1, ?_⟩
            intro hmemk
            rw [hm, hmodsO, List.map_map, List.map_map] at hmemk
            obtain ⟨y, hyf, hyk⟩ := List.mem_map.mp hmemk
            rw [List.mem_filter] at hyf
            obtain ⟨l1, hl1, hly⟩ := hwfout y hyf.1
            obtain ⟨⟨d1, hd1⟩, ⟨h1, hh1⟩, _⟩ := hwf3 l1 hl1
            have hyd : y.domain = some d1 := by rw [← hly, classify_domain]; exact hd1
            have hyh : y.hostname = some h1 := by rw [← hly, classify_hostname]; exact hh1
            have hyk2 : (d1, h1) = (rc.domain, rc.hostname) := by
              rw [← hyk]
              show (d1, h1) = (y.domain.getD "", y.hostname.getD "")
              rw [hyd, hyh, Option.getD_some, Option.getD_some]
            have hd1e : d1 = d0 := by
              have h1e : d1 = rc.domain := congrArg Prod.fst hyk2
              have h2e : some rc.domain = some d0 := by rw [← hrc.2.1, hd0]
              rw [Option.some_inj] at h2e
              rw [h1e, h2e]
            have hh1e : h1 = h0 := by
              have h1e : h1 = rc.hostname := congrArg Prod.snd hyk2
              have h2e : some rc.hostname = some h0 := by rw [← hrc.2.2, hh0]
              rw [Option.some_inj] at h2e
              rw [h1e, h2e]
            have hkeyeq : leaseKey l1 = leaseKey l0 := by
              show (l1.domain, l1.hostname) = (l0.domain, l0.hostname)
              rw [hd1, hh1, hd0, hh0, hd1e, hh1e]
            have hl1l0 : l1 = l0 := List.inj_on_of_nodup_map hLnd hl1 hl0 hkeyeq
            rw [hl1l0] at hly
            rw [← hly] at hyf
            exact hps hyf.2
          · simp only [matchesB, Bool.and_eq_true, beq_iff_eq]
            exact ⟨⟨hrc.2.1, hrc.2.2⟩, hipq.symm⟩
  · rw [decide_eq_true_eq, ← hfold]
    exact keys_foldl_upsert_nodup m K hKnd

/-- C2 witness current set: one binding whose address changed. -/
def c2L : List Lease :=
  [{ domain := some "example.com", hostname := some "host1", ip := some "10.0.0.2" }]

/-- C2 witness cache before the cycle. -/
def c2K : List CacheRecord := [⟨"example.com", "host1", "10.0.0.1"⟩]

/-- C2 witness compare output: the binding classified `UPDATED`. -/
def c2Out : List Lease :=
  [{ domain := some "example.com", hostname := some "host1", ip := some "10.0.0.2",
     state := .updated }]

/-- C2 witness cache after the cycle. -/
def c2K2 : List CacheRecord := [⟨"example.com", "host1", "10.0.0.2"⟩]

/-- C2 witness: a concrete successful cycle whose final cache mirrors the
current binding set. -/
theorem c2_cache_mirrors_current_witness : mirrors c2K2 c2L = true :=
  c2_cache_mirrors_current c2L c2K c2Out c2K2 (by decide) (by decide) (by decide)
    (by decide) (by decide) (by decide) (by decide)
